import Mathlib

/-!
Verification development for the `use-http-request-hook` repository
(`src/useHttpRequest.js`).

The source is a React hook around a module-level bounded response `cache`
(a JS `Map`), a module-level `inFlightMap` deduplicating concurrent GET
requests, a debounce timer, and abort-based teardown.  We embed it as a
deterministic event-step machine:

* JS `Map`s become association lists (`mapGet` / `mapSet` / `mapDelete`),
  with `Map.set` keeping the position of an existing key and appending new
  keys at the end, and `Map.delete` removing the (unique) entry — exactly
  the JS insertion-order semantics.
* The hook's observable per-component state (`data`, `error`, `isLoading`),
  the refs (`timeoutRef`, `didSetInFlight`) and the effect-captured `url`
  become a `CallerState` record per mounted component.
* A network round (one `fetch` call together with its promise chain) is
  issued by `runFetch` and later settled by an explicit `settleRound` event
  carrying the nondeterministically chosen `Outcome`.  Settlement is one
  atomic step performing, in source order: the cache commit from the
  promise chain, the attached `.then`/`.catch`/`.finally` reactions of all
  subscribed callers, and the originator's `finally` cleanup of
  `inFlightMap` — matching the spec's cooperative-scheduling model whose
  only suspension points are the network call and the debounce delay.
* A ghost transport log records every issued `fetch` invocation, and cache
  entries carry a ghost tag naming the round that committed them; ghost
  data is only written, never read by the modelled code.
-/

/-- JS values as far as the hook observes them: only truthiness and
equality matter (`if (shouldCache && result)`), so a small universe
suffices. -/
inductive JsValue where
  | nullV : JsValue
  | boolV : Bool → JsValue
  | numV : Int → JsValue
  | strV : String → JsValue
  | objV : Nat → JsValue
deriving DecidableEq, Repr

/-- JS truthiness for the values above (`null`, `false`, `0`, `""` are
falsy; objects are always truthy). -/
def truthy : JsValue → Bool
  | JsValue.nullV => false
  | JsValue.boolV b => b
  | JsValue.numV n => decide (n ≠ 0)
  | JsValue.strV s => decide (s ≠ "")
  | JsValue.objV _ => true

section MapOps

variable {K : Type} {α : Type} [DecidableEq K]

/-- JS `Map.get`: value of the entry with the given key, if any. -/
def mapGet : List (K × α) → K → Option α
  | [], _ => none
  | (k', v) :: t, k => if k' = k then some v else mapGet t k

/-- JS `Map.set`: replace the value in place when the key is present
(keeping its insertion position), otherwise append the new entry at the
end. -/
def mapSet : List (K × α) → K → α → List (K × α)
  | [], k, v => [(k, v)]
  | (k', v') :: t, k, v => if k' = k then (k, v) :: t else (k', v') :: mapSet t k v

/-- JS `Map.delete`: remove the first entry with the given key. -/
def mapDelete : List (K × α) → K → List (K × α)
  | [], _ => []
  | (k', v') :: t, k => if k' = k then t else (k', v') :: mapDelete t k

/-- JS `Map.has`. -/
def mapHas (l : List (K × α)) (k : K) : Bool :=
  (mapGet l k).isSome

end MapOps

/-- Source constant `MAX_CACHE_SIZE = 100`. -/
def MAX_CACHE_SIZE : Nat := 100

/-- Cache write performed inside the fetch promise chain:

    if (cache.size >= MAX_CACHE_SIZE) {
      const firstValue = cache.keys().next().value;
      cache.delete(firstValue);
    }
    cache.set(url, result);

`cache.keys().next().value` is the key of the first (oldest-inserted)
entry of the JS `Map`, so at capacity the single oldest-inserted entry is
deleted before the new entry is set.  Generic in the stored value so that
both the bare statement and the ghost-tagged machine cache can use it. -/
def cacheCommit {α : Type} (c : List (String × α)) (url : String) (result : α) :
    List (String × α) :=
  let c1 :=
    if MAX_CACHE_SIZE ≤ c.length then
      match c with
      | [] => []
      | (firstKey, _) :: _ => mapDelete c firstKey
    else c
  mapSet c1 url result

/-- Caller-supplied options object.  The hook reads exactly the keys
`method`, `headers`, `body` and `debounce` (`stableOptions`, source lines
26 to 34); `none` models an absent key.  The extra `debounceMs` field
models a caller passing a key of that name, which the source never
reads — it is carried only so that theorems can speak about supplying
it. -/
structure Options where
  method : Option String := none
  headers : Option (List (String × String)) := none
  body : Option JsValue := none
  debounce : Option Nat := none
  debounceMs : Option Nat := none
deriving DecidableEq, Repr

/-- Result of the `useMemo` normalisation. -/
structure StableOptions where
  method : String
  headers : List (String × String)
  body : JsValue
  debounce : Nat
deriving DecidableEq, Repr

/-- JS `x || d` for an optional string (absent and `""` are falsy). -/
def jsOrString : Option String → String → String
  | none, d => d
  | some s, d => if s = "" then d else s

/-- Source `stableOptions`:

    method: options.method || "GET",
    headers: options.headers || {},
    body: options.body || null,
    debounce: options.debounce || 0
-/
def stableOptions (o : Options) : StableOptions :=
  { method := jsOrString o.method "GET"
    headers := o.headers.getD []
    body := match o.body with
      | none => JsValue.nullV
      | some v => if truthy v then v else JsValue.nullV
    debounce := o.debounce.getD 0 }

/-- JS `String.prototype.toUpperCase` (`stableOptions.method.toUpperCase()`),
as a character-wise map.  Equivalent to `String.toUpper`, but stated over
the character list so the kernel can evaluate it. -/
def toUpperCase (s : String) : String :=
  String.mk (s.data.map Char.toUpper)

/-- Settlement outcome of one network round: the `fetch` promise chain
resolves with a decoded body, or rejects with a non-2xx status error
(`HTTP error! status: n`), a transport error, a body-decode error, or an
`AbortError` raised by the `AbortController`. -/
inductive Outcome where
  | success : JsValue → Outcome
  | httpError : Nat → Outcome
  | transportError : String → Outcome
  | decodeError : String → Outcome
  | abortError : Outcome
deriving DecidableEq, Repr

/-- Message string of a rejection (`err.message`).  Junk `""` on the
constructors whose message the code never reads. -/
def failureMessage : Outcome → String
  | Outcome.httpError status => "HTTP error! status: " ++ toString status
  | Outcome.transportError msg => msg
  | Outcome.decodeError msg => msg
  | _ => ""

/-- Kind of subscription a caller holds on a round's shared promise:
the originator's `try/catch/finally` in `runFetch` (source lines 110 to
120), or the `.then/.catch/.finally` chain attached by a deduplicated
caller (source lines 62 to 71). -/
inductive HKind where
  | originator : HKind
  | attacher : HKind
deriving DecidableEq, Repr

/-- One subscription of caller `caller` to round `round`. -/
structure Attachment where
  caller : Nat
  round : Nat
  kind : HKind
deriving DecidableEq, Repr

/-- Pending debounced `runFetch` stored in `timeoutRef`: the closure
captures the url and the computed `shouldCache`; `expiry` is the absolute
time at which `setTimeout` fires. -/
structure PendingFetch where
  url : String
  shouldCache : Bool
  expiry : Nat
deriving DecidableEq, Repr

/-- Per-component state of one hook instance: the three `useState` cells,
the `timeoutRef` and `didSetInFlight` refs, and the url captured by the
current effect (used by its cleanup). -/
structure CallerState where
  data : JsValue
  error : Option String
  isLoading : Bool
  timer : Option PendingFetch
  didSetInFlight : Bool
  curUrl : String
deriving DecidableEq, Repr

/-- Initial state installed by `useState(null)/useState(null)/useState(true)`. -/
def initialCallerState : CallerState :=
  { data := JsValue.nullV
    error := none
    isLoading := true
    timer := none
    didSetInFlight := false
    curUrl := "" }

/-- Bookkeeping for one issued network round. -/
structure RoundInfo where
  rid : Nat
  url : String
  shouldCache : Bool
deriving DecidableEq, Repr

/-- Whole-system state: the module-level `cache` and `inFlightMap`, every
mounted hook instance, plus ghost bookkeeping (issued rounds, their
subscriptions, which rounds have settled, the transport log, and a
clock).  Cache entries carry the ghost id of the round that committed
them; the transport log records `(round, url, time)` for every `fetch`
invocation. -/
structure Machine where
  cache : List (String × JsValue × Nat)
  inFlight : List (String × Nat)
  callers : List (Nat × CallerState)
  rounds : List RoundInfo
  attachments : List Attachment
  settled : List Nat
  transportCalls : List (Nat × String × Nat)
  nextRound : Nat
  now : Nat
deriving DecidableEq, Repr

/-- Empty initial machine: fresh module state, nothing mounted. -/
def initMachine : Machine :=
  { cache := []
    inFlight := []
    callers := []
    rounds := []
    attachments := []
    settled := []
    transportCalls := []
    nextRound := 0
    now := 0 }

/-- Replace caller `c`'s state. -/
def setCaller (m : Machine) (c : Nat) (cs : CallerState) : Machine :=
  { m with callers := mapSet m.callers c cs }

/-- Whether caller `c` holds a subscription of kind `k` on round `rid`. -/
def isAttached (l : List Attachment) (c rid : Nat) (k : HKind) : Bool :=
  l.any (fun a => decide (a.caller = c ∧ a.round = rid ∧ a.kind = k))

/-- Source `runFetch` up to and including its synchronous prefix: set
loading, clear error, invoke `fetch` (logged as a transport call), build
the promise chain, and — before any suspension point — register the
pending promise in `inFlightMap` and set `didSetInFlight` when the method
is GET (source lines 78 to 108). -/
def runFetch (m : Machine) (c : Nat) (url : String) (shouldCache : Bool) : Machine :=
  match mapGet m.callers c with
  | none => m
  | some cs =>
    let r := m.nextRound
    let m1 := setCaller m c
      { cs with isLoading := true
                error := none
                didSetInFlight := shouldCache || cs.didSetInFlight }
    { m1 with
      rounds := RoundInfo.mk r url shouldCache :: m1.rounds
      transportCalls := (r, url, m1.now) :: m1.transportCalls
      inFlight := if shouldCache then mapSet m1.inFlight url r else m1.inFlight
      attachments := Attachment.mk c r HKind.originator :: m1.attachments
      nextRound := r + 1 }

/-- Source `fetchData` (lines 36 to 130), invoked by the effect on mount
or input change and by `refetch`; `t` is the wall-clock instant of the
invocation.  In source order: bail out on a falsy url; normalise the
method; serve a cached GET synchronously; attach to an in-flight GET
synchronously; otherwise clear any pending debounce timer and either
schedule `runFetch` after `debounce` milliseconds or run it at once. -/
def fetchData (m0 : Machine) (c : Nat) (url : String) (opts : Options) (t : Nat) : Machine :=
  let m1 := { m0 with now := max m0.now t }
  match mapGet m1.callers c with
  | none => m1
  | some cs0 =>
    let cs1 := { cs0 with curUrl := url }
    let m2 := setCaller m1 c cs1
    if url = "" then m2
    else
      let so := stableOptions opts
      let method := toUpperCase so.method
      let shouldCache : Bool := decide (method = "GET")
      match (if shouldCache then mapGet m2.cache url else none) with
      | some (v, _) =>
        setCaller m2 c { cs1 with data := v, isLoading := false, error := none }
      | none =>
        match (if shouldCache then mapGet m2.inFlight url else none) with
        | some r =>
          { setCaller m2 c { cs1 with isLoading := true } with
            attachments := Attachment.mk c r HKind.attacher :: m2.attachments }
        | none =>
          let cs2 := { cs1 with timer := none }
          if 0 < so.debounce then
            setCaller m2 c { cs2 with timer := some (PendingFetch.mk url shouldCache (m1.now + so.debounce)) }
          else
            runFetch (setCaller m2 c cs2) c url shouldCache

/-- Firing of a pending `setTimeout(runFetch, debounce)` at instant `t`:
only a timer that is still pending fires, exactly at its expiry. -/
def timerFire (m : Machine) (c : Nat) (t : Nat) : Machine :=
  match mapGet m.callers c with
  | none => m
  | some cs =>
    match cs.timer with
    | none => m
    | some pf =>
      if t = pf.expiry ∧ m.now ≤ t then
        runFetch (setCaller { m with now := t } c { cs with timer := none }) c pf.url pf.shouldCache
      else m

/-- Reactions run when the shared promise of a round settles with
outcome `o`, for a caller subscribed as originator and/or attacher.
Attacher (source lines 62 to 71): `.then` sets data and clears error,
`.catch` sets the message unless the rejection is an `AbortError`,
`.finally` clears loading.  Originator (lines 110 to 120): `await` then
`setData`, `catch` sets the message unless `AbortError`, `finally` clears
loading.  The originator's `setError(null)` already ran at the start of
`runFetch`, so on success it leaves `error` as is. -/
def applyOutcome (hasOrig hasAtt : Bool) (o : Outcome) (cs : CallerState) : CallerState :=
  if hasOrig || hasAtt then
    match o with
    | Outcome.success v =>
      { cs with data := v
                error := if hasAtt then none else cs.error
                isLoading := false }
    | Outcome.abortError => { cs with isLoading := false }
    | o' => { cs with error := some (failureMessage o'), isLoading := false }
  else cs

/-- Settlement of round `rid` with outcome `o`, as one atomic step (the
spec's only suspension point is the network call itself).  In source
order: the promise chain's cache commit on a truthy GET result (lines 94
to 103), the reactions of every subscribed caller, and the originator's
`finally` removal of the `inFlightMap` entry (line 119).  A round settles
at most once. -/
def settleRound (m : Machine) (rid : Nat) (o : Outcome) : Machine :=
  match m.rounds.find? (fun info => info.rid == rid) with
  | none => m
  | some info =>
    if rid ∈ m.settled then m
    else
      let cache1 := match o with
        | Outcome.success v =>
          if info.shouldCache && truthy v then cacheCommit m.cache info.url (v, rid)
          else m.cache
        | _ => m.cache
      let callers1 := m.callers.map (fun p =>
        (p.1, applyOutcome (isAttached m.attachments p.1 rid HKind.originator)
                           (isAttached m.attachments p.1 rid HKind.attacher) o p.2))
      let inFlight1 := if info.shouldCache then mapDelete m.inFlight info.url else m.inFlight
      { m with cache := cache1
               callers := callers1
               inFlight := inFlight1
               settled := rid :: m.settled }

/-- Effect cleanup of the hook (source lines 134 to 139): abort the
current controller (its effect, if any, reaches the model as an
`abortError` settlement), clear the debounce timer, and delete the
`inFlightMap` entry for the effect's url whenever `didSetInFlight` is
set.  The flag is never reset by the source. -/
def cleanup (m : Machine) (c : Nat) : Machine :=
  match mapGet m.callers c with
  | none => m
  | some cs =>
    let m1 := setCaller m c { cs with timer := none }
    if cs.didSetInFlight then { m1 with inFlight := mapDelete m1.inFlight cs.curUrl }
    else m1

/-- Mounting a component: `useState` initialises its observable state. -/
def mountCaller (m : Machine) (c : Nat) : Machine :=
  match mapGet m.callers c with
  | some _ => m
  | none => { m with callers := mapSet m.callers c initialCallerState }

/-- Exported `clearCache()`: empties both maps. -/
def clearCache (m : Machine) : Machine :=
  { m with cache := [], inFlight := [] }

/-- Exported `invalidateURL(url)`: deletes one url from both maps. -/
def invalidateURL (m : Machine) (url : String) : Machine :=
  { m with cache := mapDelete m.cache url, inFlight := mapDelete m.inFlight url }

/-- Events of the cooperative schedule. -/
inductive Event where
  | mount : Nat → Event
  | invoke : Nat → String → Options → Nat → Event
  | timer : Nat → Nat → Event
  | settle : Nat → Outcome → Event
  | teardown : Nat → Event
  | clearCacheEv : Event
  | invalidateURLEv : String → Event
deriving DecidableEq, Repr

/-- Deterministic step function. -/
def step (m : Machine) : Event → Machine
  | Event.mount c => mountCaller m c
  | Event.invoke c url opts t => fetchData m c url opts t
  | Event.timer c t => timerFire m c t
  | Event.settle rid o => settleRound m rid o
  | Event.teardown c => cleanup m c
  | Event.clearCacheEv => clearCache m
  | Event.invalidateURLEv url => invalidateURL m url

/-- Run a sequence of events. -/
def run (m : Machine) (evs : List Event) : Machine :=
  evs.foldl step m

/-- States reachable from the empty initial machine. -/
def Reachable (m : Machine) : Prop :=
  ∃ evs, m = run initMachine evs

/-- State invariant maintained by every event: the cache respects its
bound, the in-flight registry has duplicate-free keys and refers only to
issued, unsettled GET rounds for their own url, cache tags name settled
rounds, and the round counter is fresh. -/
structure MachineInv (m : Machine) : Prop where
  cacheLen : m.cache.length ≤ MAX_CACHE_SIZE
  ifKeysNodup : (m.inFlight.map Prod.fst).Nodup
  ifRounds : ∀ p ∈ m.inFlight,
    ∃ info ∈ m.rounds, info.rid = p.2 ∧ info.url = p.1 ∧ info.shouldCache = true
  ifUnsettled : ∀ p ∈ m.inFlight, p.2 ∉ m.settled
  cacheSettled : ∀ q ∈ m.cache, q.2.2 ∈ m.settled
  roundsFresh : ∀ info ∈ m.rounds, info.rid < m.nextRound
  settledFresh : ∀ r ∈ m.settled, r < m.nextRound
  roundsNodup : (m.rounds.map RoundInfo.rid).Nodup


/-- Outcomes that are rejections of the fetch promise chain. -/
def isFailure : Outcome → Bool
  | Outcome.success _ => false
  | _ => true

/-- Options object carrying only a `debounce` key. -/
def debounceOpts (d : Nat) : Options :=
  { debounce := some d }

/-- Options object carrying only the key `debounceMs` named by the spec;
the source reads `options.debounce`, so this key is ignored. -/
def msOpts : Options :=
  { debounceMs := some 500 }

/-- Options object selecting a non-GET method. -/
def postOpts : Options :=
  { method := some "POST" }

/-- Two components mount and invoke `execute` for the same url in the
same tick; the first invocation is not debounced. -/
def c1trace (u : String) : List Event :=
  [Event.mount 0, Event.mount 1, Event.invoke 0 u {} 0, Event.invoke 1 u {} 0]

/-- Machine reached by `c1trace` for a non-empty url: one transport call,
one registry entry, the second caller attached to round 0. -/
def c1mid (u : String) : Machine :=
  { cache := []
    inFlight := [(u, 0)]
    callers := [(0, { data := JsValue.nullV, error := none, isLoading := true, timer := none,
                      didSetInFlight := true, curUrl := u }),
                (1, { data := JsValue.nullV, error := none, isLoading := true, timer := none,
                      didSetInFlight := false, curUrl := u })]
    rounds := [RoundInfo.mk 0 u true]
    attachments := [Attachment.mk 1 0 HKind.attacher, Attachment.mk 0 0 HKind.originator]
    settled := []
    transportCalls := [(0, u, 0)]
    nextRound := 1
    now := 0 }

/-- Component 0 invokes a debounced GET for "u"; before its timer fires,
component 1 invokes a non-debounced GET for the same url; then the timer
fires.  Both `execute` calls happen before either network call settles. -/
def c1cex : List Event :=
  [Event.mount 0, Event.mount 1, Event.invoke 0 "u" (debounceOpts 1) 0,
   Event.invoke 1 "u" {} 0, Event.timer 0 1]

/-- Three debounced invocations of the same hook instance at instants
`t1`, `t2`, `t3`, each replacing the pending timer. -/
def c5trace (u : String) (d t1 t2 t3 : Nat) : List Event :=
  [Event.mount 0, Event.invoke 0 u (debounceOpts d) t1,
   Event.invoke 0 u (debounceOpts d) t2, Event.invoke 0 u (debounceOpts d) t3]

/-- Machine reached by `c5trace`: no transport call yet, one pending
timer expiring a full delay after the last invocation. -/
def c5mid (u : String) (d t3 : Nat) : Machine :=
  { cache := []
    inFlight := []
    callers := [(0, { data := JsValue.nullV, error := none, isLoading := true,
                      timer := some (PendingFetch.mk u true (t3 + d)),
                      didSetInFlight := false, curUrl := u })]
    rounds := []
    attachments := []
    settled := []
    transportCalls := []
    nextRound := 0
    now := t3 }

/-- A GET round of "u" cached: after a settle with success the cache
holds the url; used for the C5 counterexample.  Component 1 then invokes
with a positive debounce. -/
def c5cex : List Event :=
  [Event.mount 0, Event.invoke 0 "u" {} 0,
   Event.settle 0 (Outcome.success (JsValue.objV 7)),
   Event.mount 1, Event.invoke 1 "u" (debounceOpts 5) 0]

/-- Caller 0 originates round 0 which settles with a failure (so nothing
is cached); caller 1 then originates round 1 for the same url; caller 0
is finally torn down. -/
def c6cex : List Event :=
  [Event.mount 0, Event.mount 1, Event.invoke 0 "u" {} 0,
   Event.settle 0 (Outcome.httpError 500), Event.invoke 1 "u" {} 1]

/-- A cache already holding `MAX_CACHE_SIZE` entries. -/
def cacheFull : List (String × JsValue × Nat) :=
  List.replicate MAX_CACHE_SIZE ("k", JsValue.nullV, 0)

/-- Caller 0 originates a GET round for "a" which settles successfully
while caller 1 sits in a debounce delay for the same url; caller 1's
timer then fires and re-registers "a" although it is already cached. -/
def c7wtrace : List Event :=
  [Event.mount 0, Event.mount 1, Event.invoke 1 "a" (debounceOpts 5) 0,
   Event.invoke 0 "a" {} 0, Event.settle 0 (Outcome.success (JsValue.objV 1)),
   Event.timer 1 5]

section MapLemmas

variable {K : Type} {α : Type} [DecidableEq K]

@[simp] theorem mapGet_nil {k : K} : mapGet ([] : List (K × α)) k = none := rfl

@[simp] theorem mapGet_cons {k k' : K} {v : α} {t : List (K × α)} :
    mapGet ((k', v) :: t) k = if k' = k then some v else mapGet t k := rfl

@[simp] theorem mapSet_nil {k : K} {v : α} : mapSet ([] : List (K × α)) k v = [(k, v)] := rfl

@[simp] theorem mapSet_cons {k k' : K} {v v' : α} {t : List (K × α)} :
    mapSet ((k', v') :: t) k v =
      if k' = k then (k, v) :: t else (k', v') :: mapSet t k v := rfl

@[simp] theorem mapDelete_nil {k : K} : mapDelete ([] : List (K × α)) k = [] := rfl

@[simp] theorem mapDelete_cons {k k' : K} {v' : α} {t : List (K × α)} :
    mapDelete ((k', v') :: t) k = if k' = k then t else (k', v') :: mapDelete t k := rfl

theorem mapGet_mapSet_self {l : List (K × α)} {k : K} {v : α} :
    mapGet (mapSet l k v) k = some v := by
  induction l with
  | nil => simp
  | cons p t ih =>
    obtain ⟨k', v'⟩ := p
    by_cases h : k' = k <;> simp [h, ih]

theorem mapGet_mapSet_ne {l : List (K × α)} {k k' : K} {v : α} (h : k ≠ k') :
    mapGet (mapSet l k v) k' = mapGet l k' := by
  induction l with
  | nil => simp [h]
  | cons p t ih =>
    obtain ⟨k₀, v₀⟩ := p
    by_cases h0 : k₀ = k
    · subst h0; simp [h]
    · simp [h0, ih]

theorem mem_of_mem_mapSet {l : List (K × α)} {k : K} {v : α} {p : K × α}
    (hp : p ∈ mapSet l k v) : p ∈ l ∨ p = (k, v) := by
  induction l with
  | nil => simpa using hp
  | cons q t ih =>
    obtain ⟨k₀, v₀⟩ := q
    by_cases h0 : k₀ = k
    · subst h0
      simp only [mapSet_cons, if_true, eq_self_iff_true, List.mem_cons] at hp
      rcases hp with h | h
      · exact Or.inr h
      · exact Or.inl (List.mem_cons_of_mem _ h)
    · simp only [mapSet_cons, if_neg h0, List.mem_cons] at hp
      rcases hp with h | h
      · exact Or.inl (by simp [h])
      · rcases ih h with h' | h'
        · exact Or.inl (List.mem_cons_of_mem _ h')
        · exact Or.inr h'

theorem mem_of_mem_mapDelete {l : List (K × α)} {k : K} {p : K × α}
    (hp : p ∈ mapDelete l k) : p ∈ l := by
  induction l with
  | nil => simpa using hp
  | cons q t ih =>
    obtain ⟨k₀, v₀⟩ := q
    by_cases h0 : k₀ = k
    · subst h0
      simp only [mapDelete_cons, if_true, eq_self_iff_true] at hp
      exact List.mem_cons_of_mem _ hp
    · simp only [mapDelete_cons, if_neg h0, List.mem_cons] at hp
      rcases hp with h | h
      · exact List.mem_cons.mpr (Or.inl h)
      · exact List.mem_cons_of_mem _ (ih h)

theorem mapDelete_sublist (l : List (K × α)) (k : K) : (mapDelete l k).Sublist l := by
  induction l with
  | nil => simp
  | cons q t ih =>
    obtain ⟨k₀, v₀⟩ := q
    by_cases h0 : k₀ = k
    · simp only [mapDelete_cons, if_pos h0]
      exact List.sublist_cons_self _ _
    · simp only [mapDelete_cons, if_neg h0]
      exact ih.cons₂ _

theorem mapDelete_keys_nodup {l : List (K × α)} {k : K}
    (h : (l.map Prod.fst).Nodup) : ((mapDelete l k).map Prod.fst).Nodup :=
  ((mapDelete_sublist l k).map Prod.fst).nodup h

theorem mem_keys_mapSet {l : List (K × α)} {k a : K} {v : α}
    (ha : a ∈ (mapSet l k v).map Prod.fst) : a ∈ l.map Prod.fst ∨ a = k := by
  simp only [List.mem_map] at ha
  obtain ⟨p, hp, hpa⟩ := ha
  rcases mem_of_mem_mapSet hp with h | h
  · exact Or.inl (List.mem_map.mpr ⟨p, h, hpa⟩)
  · subst h; exact Or.inr hpa.symm

theorem mapSet_keys_nodup {l : List (K × α)} {k : K} {v : α}
    (h : (l.map Prod.fst).Nodup) : ((mapSet l k v).map Prod.fst).Nodup := by
  induction l with
  | nil => simp
  | cons q t ih =>
    obtain ⟨k₀, v₀⟩ := q
    simp only [List.map_cons, List.nodup_cons] at h
    by_cases h0 : k₀ = k
    · subst h0
      simpa using h
    · simp only [mapSet_cons, if_neg h0, List.map_cons, List.nodup_cons]
      refine ⟨fun hmem => ?_, ih h.2⟩
      rcases mem_keys_mapSet hmem with hm | hm
      · exact h.1 hm
      · exact h0 hm

theorem mapGet_eq_none_of_not_mem_keys {l : List (K × α)} {k : K}
    (h : k ∉ l.map Prod.fst) : mapGet l k = none := by
  induction l with
  | nil => simp
  | cons q t ih =>
    obtain ⟨k₀, v₀⟩ := q
    simp only [List.map_cons, List.mem_cons] at h
    push_neg at h
    have hne : k₀ ≠ k := fun hh => h.1 hh.symm
    simp only [mapGet_cons, if_neg hne]
    exact ih h.2

theorem mapGet_mapDelete_self {l : List (K × α)} {k : K}
    (h : (l.map Prod.fst).Nodup) : mapGet (mapDelete l k) k = none := by
  induction l with
  | nil => simp
  | cons q t ih =>
    obtain ⟨k₀, v₀⟩ := q
    simp only [List.map_cons, List.nodup_cons] at h
    by_cases h0 : k₀ = k
    · subst h0
      simp only [mapDelete_cons, if_true, eq_self_iff_true]
      exact mapGet_eq_none_of_not_mem_keys h.1
    · simp only [mapDelete_cons, if_neg h0, mapGet_cons, if_neg h0]
      exact ih h.2

theorem mapGet_eq_some_mem {l : List (K × α)} {k : K} {v : α}
    (h : mapGet l k = some v) : (k, v) ∈ l := by
  induction l with
  | nil => simp at h
  | cons q t ih =>
    obtain ⟨k₀, v₀⟩ := q
    by_cases h0 : k₀ = k
    · subst h0
      simp only [mapGet_cons, if_true, eq_self_iff_true, Option.some.injEq] at h
      simp [h]
    · simp only [mapGet_cons, if_neg h0] at h
      exact List.mem_cons_of_mem _ (ih h)

theorem mapSet_length_le {l : List (K × α)} {k : K} {v : α} :
    (mapSet l k v).length ≤ l.length + 1 := by
  induction l with
  | nil => simp
  | cons q t ih =>
    obtain ⟨k₀, v₀⟩ := q
    by_cases h0 : k₀ = k <;> simp [h0] <;> omega


end MapLemmas

/-- Auxiliary map fact: any present key is found. -/
theorem mapGet_isSome_of_mem {K α : Type} [DecidableEq K] {l : List (K × α)} {p : K × α}
    (hp : p ∈ l) : (mapGet l p.1).isSome := by
  induction l with
  | nil => simp at hp
  | cons q t ih =>
    obtain ⟨k₀, v₀⟩ := q
    by_cases h0 : k₀ = p.1
    · simp [h0]
    · rcases List.mem_cons.mp hp with h | h
      · exact absurd (congrArg Prod.fst h).symm h0
      · simp only [mapGet_cons, if_neg h0]
        exact ih h

/-- With duplicate-free keys, an entry surviving `mapDelete k` cannot
have key `k`. -/
theorem ne_key_of_mem_mapDelete {K α : Type} [DecidableEq K] {l : List (K × α)} {k : K}
    {p : K × α} (hn : (l.map Prod.fst).Nodup) (hp : p ∈ mapDelete l k) : p.1 ≠ k := by
  intro hk
  have h1 : mapGet (mapDelete l k) k = none := mapGet_mapDelete_self hn
  have h2 : (mapGet (mapDelete l k) p.1).isSome := mapGet_isSome_of_mem hp
  rw [hk, h1] at h2
  simp at h2

/-- Bounded-cache step fact: a commit never pushes the cache above
`MAX_CACHE_SIZE`. -/
theorem cacheCommit_length_le {α : Type} {c : List (String × α)} {k : String} {v : α}
    (h : c.length ≤ MAX_CACHE_SIZE) : (cacheCommit c k v).length ≤ MAX_CACHE_SIZE := by
  unfold cacheCommit
  by_cases hc : MAX_CACHE_SIZE ≤ c.length
  · have hlen : c.length = MAX_CACHE_SIZE := le_antisymm h hc
    match c, hlen with
    | (fk, fv) :: t, hlen =>
      simp only [if_pos hc]
      have ht : (mapDelete ((fk, fv) :: t) fk).length = t.length := by simp
      calc (mapSet (mapDelete ((fk, fv) :: t) fk) k v).length
          ≤ (mapDelete ((fk, fv) :: t) fk).length + 1 := mapSet_length_le
        _ = t.length + 1 := by rw [ht]
        _ = ((fk, fv) :: t).length := by simp
        _ = MAX_CACHE_SIZE := hlen
  · simp only [if_neg hc]
    have : c.length + 1 ≤ MAX_CACHE_SIZE := by omega
    calc (mapSet c k v).length ≤ c.length + 1 := mapSet_length_le
      _ ≤ MAX_CACHE_SIZE := this

/-- Entries after a commit either were present or are the new entry. -/
theorem mem_of_mem_cacheCommit {α : Type} {c : List (String × α)} {k : String} {v : α}
    {q : String × α} (hq : q ∈ cacheCommit c k v) : q ∈ c ∨ q = (k, v) := by
  unfold cacheCommit at hq
  by_cases hc : MAX_CACHE_SIZE ≤ c.length
  · match c with
    | [] => simp [MAX_CACHE_SIZE] at hc
    | (fk, fv) :: t =>
      simp only [if_pos hc] at hq
      rcases mem_of_mem_mapSet hq with h | h
      · exact Or.inl (mem_of_mem_mapDelete h)
      · exact Or.inr h
  · simp only [if_neg hc] at hq
    exact mem_of_mem_mapSet hq

/-- Rounds with equal ids are equal when the issued-round ids are
duplicate-free. -/
theorem round_eq_of_rid_eq {l : List RoundInfo} (hn : (l.map RoundInfo.rid).Nodup)
    {a b : RoundInfo} (ha : a ∈ l) (hb : b ∈ l) (hr : a.rid = b.rid) : a = b := by
  induction l with
  | nil => simp at ha
  | cons q t ih =>
    simp only [List.map_cons, List.nodup_cons] at hn
    rcases List.mem_cons.mp ha with h1 | h1 <;> rcases List.mem_cons.mp hb with h2 | h2
    · rw [h1, h2]
    · exfalso
      have hb : b.rid ∈ t.map RoundInfo.rid := List.mem_map.mpr ⟨b, h2, rfl⟩
      rw [h1] at hr
      rw [← hr] at hb
      exact hn.1 hb
    · exfalso
      have ha' : a.rid ∈ t.map RoundInfo.rid := List.mem_map.mpr ⟨a, h1, rfl⟩
      rw [h2] at hr
      rw [hr] at ha'
      exact hn.1 ha'
    · exact ih hn.2 h1 h2

/-- Transfer of the invariant along a machine that agrees on every field
the invariant mentions. -/
theorem inv_mimic {m m' : Machine} (h : MachineInv m)
    (hc : m'.cache = m.cache) (hif : m'.inFlight = m.inFlight)
    (hr : m'.rounds = m.rounds) (hs : m'.settled = m.settled)
    (hn : m'.nextRound = m.nextRound) : MachineInv m' where
  cacheLen := hc ▸ h.cacheLen
  ifKeysNodup := hif ▸ h.ifKeysNodup
  ifRounds := by rw [hif, hr]; exact h.ifRounds
  ifUnsettled := by rw [hif, hs]; exact h.ifUnsettled
  cacheSettled := by rw [hc, hs]; exact h.cacheSettled
  roundsFresh := by rw [hr, hn]; exact h.roundsFresh
  settledFresh := by rw [hs, hn]; exact h.settledFresh
  roundsNodup := hr ▸ h.roundsNodup

theorem inv_initMachine : MachineInv initMachine where
  cacheLen := by simp [initMachine, MAX_CACHE_SIZE]
  ifKeysNodup := by simp [initMachine]
  ifRounds := by simp [initMachine]
  ifUnsettled := by simp [initMachine]
  cacheSettled := by simp [initMachine]
  roundsFresh := by simp [initMachine]
  settledFresh := by simp [initMachine]
  roundsNodup := by simp [initMachine]

theorem inv_mountCaller {m : Machine} {c : Nat} (h : MachineInv m) : MachineInv (mountCaller m c) := by
  unfold mountCaller
  split
  · exact h
  · exact inv_mimic h rfl rfl rfl rfl rfl

theorem inv_runFetch {m : Machine} {c : Nat} {url : String} {sc : Bool} (h : MachineInv m) :
    MachineInv (runFetch m c url sc) := by
  unfold runFetch
  split
  · exact h
  · refine ⟨h.cacheLen, ?_, ?_, ?_, ?_, ?_, ?_, ?_⟩
    · cases sc with
      | false => exact h.ifKeysNodup
      | true => exact mapSet_keys_nodup h.ifKeysNodup
    · intro p hp
      cases sc with
      | false =>
        obtain ⟨info, hmem, hprop⟩ := h.ifRounds p hp
        exact ⟨info, List.mem_cons_of_mem _ hmem, hprop⟩
      | true =>
        rcases mem_of_mem_mapSet hp with hold | hnew
        · obtain ⟨info, hmem, hprop⟩ := h.ifRounds p hold
          exact ⟨info, List.mem_cons_of_mem _ hmem, hprop⟩
        · subst hnew
          exact ⟨RoundInfo.mk m.nextRound url true, List.mem_cons_self _ _, rfl, rfl, rfl⟩
    · intro p hp
      cases sc with
      | false => exact h.ifUnsettled p hp
      | true =>
        rcases mem_of_mem_mapSet hp with hold | hnew
        · exact h.ifUnsettled p hold
        · subst hnew
          intro hmem
          exact absurd (h.settledFresh _ hmem) (lt_irrefl _)
    · exact h.cacheSettled
    · intro info hinfo
      rcases List.mem_cons.mp hinfo with h1 | h1
      · rw [h1]; exact Nat.lt_succ_self _
      · exact Nat.lt_succ_of_lt (h.roundsFresh info h1)
    · intro r hr
      exact Nat.lt_succ_of_lt (h.settledFresh r hr)
    · simp only [List.map_cons, List.nodup_cons]
      refine ⟨fun hmem => ?_, h.roundsNodup⟩
      simp only [List.mem_map] at hmem
      obtain ⟨info, hinfo, hrid⟩ := hmem
      exact absurd (hrid ▸ h.roundsFresh info hinfo) (lt_irrefl _)

theorem inv_fetchData {m : Machine} {c : Nat} {url : String} {opts : Options} {t : Nat}
    (h : MachineInv m) : MachineInv (fetchData m c url opts t) := by
  have hnow : MachineInv { m with now := max m.now t } := inv_mimic h rfl rfl rfl rfl rfl
  unfold fetchData
  dsimp only
  repeat' split
  all_goals first
    | exact inv_mimic hnow rfl rfl rfl rfl rfl
    | exact inv_runFetch (inv_mimic hnow rfl rfl rfl rfl rfl)

theorem inv_timerFire {m : Machine} {c : Nat} {t : Nat} (h : MachineInv m) : MachineInv (timerFire m c t) := by
  unfold timerFire
  split
  · exact h
  · split
    · exact h
    · split
      · exact inv_runFetch (inv_mimic h rfl rfl rfl rfl rfl)
      · exact h

theorem inv_cleanup {m : Machine} {c : Nat} (h : MachineInv m) : MachineInv (cleanup m c) := by
  unfold cleanup
  split
  · exact h
  · split
    · refine ⟨h.cacheLen, mapDelete_keys_nodup h.ifKeysNodup, ?_, ?_, h.cacheSettled,
        h.roundsFresh, h.settledFresh, h.roundsNodup⟩
      · intro p hp
        exact h.ifRounds p (mem_of_mem_mapDelete hp)
      · intro p hp
        exact h.ifUnsettled p (mem_of_mem_mapDelete hp)
    · exact inv_mimic h rfl rfl rfl rfl rfl

theorem inv_settleRound {m : Machine} {rid : Nat} {o : Outcome} (h : MachineInv m) :
    MachineInv (settleRound m rid o) := by
  unfold settleRound
  split
  · exact h
  · next info hfind =>
    split
    · exact h
    · next hrid =>
      have hinfo_mem : info ∈ m.rounds := List.mem_of_find?_eq_some hfind
      have hrid_eq : info.rid = rid := by
        have := List.find?_some hfind
        simpa using this
      refine ⟨?_, ?_, ?_, ?_, ?_, h.roundsFresh, ?_, h.roundsNodup⟩
      · match o with
        | Outcome.success v =>
          by_cases hsc : info.shouldCache && truthy v
          · simp only [hsc, if_true]
            exact cacheCommit_length_le h.cacheLen
          · simp only [hsc, if_false]
            exact h.cacheLen
        | Outcome.httpError s => exact h.cacheLen
        | Outcome.transportError s => exact h.cacheLen
        | Outcome.decodeError s => exact h.cacheLen
        | Outcome.abortError => exact h.cacheLen
      · by_cases hsc : info.shouldCache
        · simp only [hsc, if_true]
          exact mapDelete_keys_nodup h.ifKeysNodup
        · simp only [hsc, if_false]
          exact h.ifKeysNodup
      · intro p hp
        by_cases hsc : info.shouldCache
        · simp only [hsc, if_true] at hp
          exact h.ifRounds p (mem_of_mem_mapDelete hp)
        · simp only [hsc, if_false] at hp
          exact h.ifRounds p hp
      · intro p hp
        have hmemIF : p ∈ m.inFlight := by
          by_cases hsc : info.shouldCache
          · simp only [hsc, if_true] at hp
            exact mem_of_mem_mapDelete hp
          · simp only [hsc, if_false] at hp
            exact hp
        have hold : p.2 ∉ m.settled := h.ifUnsettled p hmemIF
        have hne : p.2 ≠ rid := by
          intro hpe
          obtain ⟨info', hmem', hrid', hurl', hsc'⟩ := h.ifRounds p hmemIF
          have : info' = info :=
            round_eq_of_rid_eq h.roundsNodup hmem' hinfo_mem (by rw [hrid', hpe, hrid_eq])
          subst this
          simp only [hsc', if_true] at hp
          exact ne_key_of_mem_mapDelete h.ifKeysNodup hp hurl'.symm
        intro hmem
        rcases List.mem_cons.mp hmem with h1 | h1
        · exact hne h1
        · exact hold h1
      · intro q hq
        match o with
        | Outcome.success v =>
          by_cases hsc : info.shouldCache && truthy v
          · simp only [hsc, if_true] at hq
            rcases mem_of_mem_cacheCommit hq with h1 | h1
            · exact List.mem_cons_of_mem _ (h.cacheSettled q h1)
            · rw [h1]
              exact List.mem_cons_self _ _
          · simp only [hsc, if_false] at hq
            exact List.mem_cons_of_mem _ (h.cacheSettled q hq)
        | Outcome.httpError s => exact List.mem_cons_of_mem _ (h.cacheSettled q hq)
        | Outcome.transportError s => exact List.mem_cons_of_mem _ (h.cacheSettled q hq)
        | Outcome.decodeError s => exact List.mem_cons_of_mem _ (h.cacheSettled q hq)
        | Outcome.abortError => exact List.mem_cons_of_mem _ (h.cacheSettled q hq)
      · intro r hr
        rcases List.mem_cons.mp hr with h1 | h1
        · rw [h1, ← hrid_eq]
          exact h.roundsFresh info hinfo_mem
        · exact h.settledFresh r h1

theorem inv_step {m : Machine} (e : Event) (h : MachineInv m) : MachineInv (step m e) := by
  cases e with
  | mount c => exact inv_mountCaller h
  | invoke c url opts t => exact inv_fetchData h
  | timer c t => exact inv_timerFire h
  | settle rid o => exact inv_settleRound h
  | teardown c => exact inv_cleanup h
  | clearCacheEv =>
    refine ⟨?_, ?_, ?_, ?_, ?_, h.roundsFresh, h.settledFresh, h.roundsNodup⟩ <;>
      simp [clearCache, step, MAX_CACHE_SIZE]
  | invalidateURLEv url =>
    refine ⟨?_, mapDelete_keys_nodup h.ifKeysNodup, ?_, ?_, ?_,
      h.roundsFresh, h.settledFresh, h.roundsNodup⟩
    · calc (mapDelete m.cache url).length ≤ m.cache.length :=
          (mapDelete_sublist _ _).length_le
        _ ≤ MAX_CACHE_SIZE := h.cacheLen
    · intro p hp
      exact h.ifRounds p (mem_of_mem_mapDelete hp)
    · intro p hp
      exact h.ifUnsettled p (mem_of_mem_mapDelete hp)
    · intro q hq
      exact h.cacheSettled q (mem_of_mem_mapDelete hq)

theorem inv_run {m : Machine} (evs : List Event) (h : MachineInv m) : MachineInv (run m evs) := by
  induction evs generalizing m with
  | nil => exact h
  | cons e t ih => exact ih (inv_step e h)

theorem reachable_inv {m : Machine} (h : Reachable m) : MachineInv m := by
  obtain ⟨evs, rfl⟩ := h
  exact inv_run evs inv_initMachine

@[simp] theorem toUpperCase_GET : toUpperCase "GET" = "GET" := by decide

/-- Settlement maps each caller pointwise. -/
theorem mapGet_map_apply {α : Type} {l : List (Nat × α)} {c : Nat} (f : Nat → α → α) :
    mapGet (l.map (fun p => (p.1, f p.1 p.2))) c = (mapGet l c).map (f c) := by
  induction l with
  | nil => simp
  | cons q t ih =>
    obtain ⟨c₀, cs₀⟩ := q
    by_cases h0 : c₀ = c
    · subst h0; simp
    · simp [h0, ih]

/-- Both reaction kinds leave `error` untouched on an `AbortError`. -/
theorem applyOutcome_abortError (ho ha : Bool) (cs : CallerState) :
    (applyOutcome ho ha Outcome.abortError cs).error = cs.error := by
  unfold applyOutcome
  split <;> rfl

/-- Any subscribed reaction surfaces a non-abort rejection message. -/
theorem applyOutcome_failure {o : Outcome} (ho ha : Bool) (cs : CallerState)
    (hf : isFailure o = true) (hna : o ≠ Outcome.abortError)
    (hat : (ho || ha) = true) :
    (applyOutcome ho ha o cs).error = some (failureMessage o) := by
  cases o <;> simp_all [applyOutcome, isFailure, failureMessage]

/-- A recorded subscription is found by `isAttached`. -/
theorem isAttached_of_mem {l : List Attachment} {c rid : Nat} {k : HKind}
    (h : Attachment.mk c rid k ∈ l) : isAttached l c rid k = true := by
  unfold isAttached
  rw [List.any_eq_true]
  exact ⟨_, h, by simp⟩

/-- Issuing a fetch never writes the response cache. -/
theorem runFetch_cache_eq (m : Machine) (c : Nat) (url : String) (sc : Bool) :
    (runFetch m c url sc).cache = m.cache := by
  unfold runFetch
  split <;> rfl

/-- A non-GET fetch never touches the in-flight registry. -/
theorem runFetch_inFlight_false (m : Machine) (c : Nat) (url : String) :
    (runFetch m c url false).inFlight = m.inFlight := by
  unfold runFetch
  split <;> rfl

/-- An `execute` invocation alone never writes the response cache; the
cache is written only when a round settles. -/
theorem fetchData_cache_eq (m : Machine) (c : Nat) (url : String) (opts : Options) (t : Nat) :
    (fetchData m c url opts t).cache = m.cache := by
  unfold fetchData
  dsimp only
  repeat' split
  all_goals first
    | rfl
    | exact runFetch_cache_eq _ _ _ _

/-- Computation of the machine reached by `c1trace`. -/
theorem c1_run_eq (u : String) (hu : u ≠ "") :
    run initMachine (c1trace u) = c1mid u := by
  simp [run, c1trace, step, initMachine, mountCaller, fetchData, runFetch, setCaller,
        stableOptions, jsOrString, hu, c1mid, initialCallerState]

/-- Computation of the machine reached by `c5trace`. -/
theorem c5_run_eq (u : String) (d t1 t2 t3 : Nat) (hu : u ≠ "") (hd : 0 < d)
    (h12 : t1 ≤ t2) (h23 : t2 ≤ t3) :
    run initMachine (c5trace u d t1 t2 t3) = c5mid u d t3 := by
  simp [run, c5trace, step, initMachine, mountCaller, fetchData, runFetch, setCaller,
        stableOptions, jsOrString, hu, hd, c5mid, initialCallerState, debounceOpts,
        Nat.max_eq_right (Nat.zero_le t1), Nat.max_eq_right h12, Nat.max_eq_right h23]

/-- Settlement updates each caller by its own subscribed reactions. -/
theorem mapGet_map_callers {l : List (Nat × CallerState)} {c : Nat} {att : List Attachment}
    {rid : Nat} {o : Outcome} :
    mapGet (l.map (fun p => (p.1, applyOutcome (isAttached att p.1 rid HKind.originator)
        (isAttached att p.1 rid HKind.attacher) o p.2))) c =
    (mapGet l c).map (fun cs => applyOutcome (isAttached att c rid HKind.originator)
        (isAttached att c rid HKind.attacher) o cs) := by
  induction l with
  | nil => simp
  | cons q t ih =>
    obtain ⟨c₀, cs₀⟩ := q
    by_cases h0 : c₀ = c
    · subst h0; simp
    · simp [h0, ih]


/-- An `execute` invocation with an empty url leaves all shared state, the
transport log, and every caller's state untouched, except for recording
the url in the effect closure. -/
theorem fetchData_empty_preserves (m : Machine) (c c' : Nat) (opts : Options) (t : Nat)
    (h : mapGet m.callers c' = some initialCallerState) :
    mapGet (fetchData m c "" opts t).callers c' = some initialCallerState ∧
    (fetchData m c "" opts t).transportCalls = m.transportCalls := by
  unfold fetchData
  dsimp only
  cases hg : mapGet m.callers c with
  | none => simp [hg, h]
  | some cs0 =>
    simp only [hg, eq_self_iff_true, if_true]
    constructor
    · by_cases hcc : c = c'
      · subst hcc
        have : cs0 = initialCallerState := by
          rw [hg] at h
          exact Option.some.inj h
        subst this
        exact mapGet_mapSet_self
      · rw [setCaller, mapGet_mapSet_ne hcc]
        exact h
    · rfl

/-- C1 (claim as stated is refuted): two `execute` calls with method GET
for the url "u" both occur before the first call's network call settles
(nothing has settled at all), yet two transport invocations are issued
and neither caller attaches to the other's pending result: caller 0's
invocation carries `debounce := 1`, so its check-and-register runs only
when the timer fires, after caller 1 has already checked an empty
registry and originated its own call.  This contradicts the claimed
"exactly one transport invocation" for every such pair of calls. -/
theorem C1_claim_counterexample :
    (run initMachine c1cex).transportCalls.length = 2 ∧
    (run initMachine c1cex).settled = [] ∧
    (run initMachine c1cex).attachments =
      [Attachment.mk 0 1 HKind.originator, Attachment.mk 1 0 HKind.originator] := by
  decide

/-- C1 (amended): for every url and outcome, when two `execute` calls
with method GET for that url occur before the first one's network call
settles, and the first call's network stage has already started when the
second call runs its checks (in particular whenever the first call is not
debounced, as in `c1trace`), exactly one transport invocation is issued,
the second caller attaches to the registered pending result of round 0,
and after settlement both callers observe the same final `data` and
`error`. -/
theorem C1_amended_dedupe (u : String) (hu : u ≠ "") (o : Outcome) :
    (run initMachine (c1trace u)).transportCalls.length = 1 ∧
    Attachment.mk 1 0 HKind.attacher ∈ (run initMachine (c1trace u)).attachments ∧
    ((mapGet (settleRound (run initMachine (c1trace u)) 0 o).callers 0).map CallerState.data =
      (mapGet (settleRound (run initMachine (c1trace u)) 0 o).callers 1).map CallerState.data ∧
     (mapGet (settleRound (run initMachine (c1trace u)) 0 o).callers 0).map CallerState.error =
      (mapGet (settleRound (run initMachine (c1trace u)) 0 o).callers 1).map CallerState.error) := by
  rw [c1_run_eq u hu]
  refine ⟨rfl, by simp [c1mid], ?_, ?_⟩ <;>
    cases o <;>
      simp [settleRound, c1mid, applyOutcome, isAttached, failureMessage]

/-- Witness for C1's amended theorem at url "u" and a successful outcome. -/
theorem C1_amended_dedupe_witness :
    ("u" : String) ≠ "" ∧
    ((run initMachine (c1trace "u")).transportCalls.length = 1 ∧
     Attachment.mk 1 0 HKind.attacher ∈ (run initMachine (c1trace "u")).attachments ∧
     ((mapGet (settleRound (run initMachine (c1trace "u")) 0
          (Outcome.success (JsValue.objV 3))).callers 0).map CallerState.data =
       (mapGet (settleRound (run initMachine (c1trace "u")) 0
          (Outcome.success (JsValue.objV 3))).callers 1).map CallerState.data ∧
      (mapGet (settleRound (run initMachine (c1trace "u")) 0
          (Outcome.success (JsValue.objV 3))).callers 0).map CallerState.error =
       (mapGet (settleRound (run initMachine (c1trace "u")) 0
          (Outcome.success (JsValue.objV 3))).callers 1).map CallerState.error)) :=
  ⟨by decide, C1_amended_dedupe "u" (by decide) (Outcome.success (JsValue.objV 3))⟩

/-- C2: over every sequence of operations the response cache never holds
more than `MAX_CACHE_SIZE` (100) entries; a commit hitting a cache at
capacity first deletes the single head entry — the oldest-inserted one,
since `mapSet` appends new keys at the tail — and then inserts
(insertion-order FIFO); a commit below capacity evicts nothing; and
reading the cache (any `execute` invocation, including cache hits) never
modifies it, so eviction order is insertion order, not
least-recently-used or access order. -/
theorem C2_cache_bound_fifo :
    (∀ m : Machine, Reachable m → m.cache.length ≤ MAX_CACHE_SIZE) ∧
    (∀ (cch : List (String × JsValue × Nat)) (k : String) (v : JsValue × Nat),
       cch.length = MAX_CACHE_SIZE → cacheCommit cch k v = mapSet cch.tail k v) ∧
    (∀ (cch : List (String × JsValue × Nat)) (k : String) (v : JsValue × Nat),
       cch.length < MAX_CACHE_SIZE → cacheCommit cch k v = mapSet cch k v) ∧
    (∀ (m : Machine) (c : Nat) (url : String) (opts : Options) (t : Nat),
       (fetchData m c url opts t).cache = m.cache) := by
  refine ⟨?_, ?_, ?_, fetchData_cache_eq⟩
  · intro m h
    exact (reachable_inv h).cacheLen
  · intro cch k v hlen
    match cch, hlen with
    | (fk, fv) :: tl, hlen =>
      unfold cacheCommit
      have hle : MAX_CACHE_SIZE ≤ ((fk, fv) :: tl).length := le_of_eq hlen.symm
      simp only [if_pos hle]
      simp
  · intro cch k v hlen
    unfold cacheCommit
    simp only [if_neg (not_le_of_lt hlen)]

/-- Witness for C2 at the empty reachable machine, a full cache, an
empty cache, and a concrete invocation. -/
theorem C2_cache_bound_fifo_witness :
    initMachine.cache.length ≤ MAX_CACHE_SIZE ∧
    cacheCommit cacheFull "z" (JsValue.objV 0, 7) =
      mapSet cacheFull.tail "z" (JsValue.objV 0, 7) ∧
    cacheCommit ([] : List (String × JsValue × Nat)) "z" (JsValue.objV 0, 7) =
      mapSet [] "z" (JsValue.objV 0, 7) ∧
    (fetchData initMachine 0 "u" {} 0).cache = initMachine.cache :=
  ⟨C2_cache_bound_fifo.1 initMachine ⟨[], rfl⟩,
   C2_cache_bound_fifo.2.1 cacheFull "z" (JsValue.objV 0, 7) (by decide),
   C2_cache_bound_fifo.2.2.1 [] "z" (JsValue.objV 0, 7) (by decide),
   C2_cache_bound_fifo.2.2.2 initMachine 0 "u" {} 0⟩

/-- C3: when a round settles with the cancellation outcome
(`AbortError`), no caller's `error` field changes — originator and
attached callers alike — while any non-cancellation failure (non-2xx
status, transport failure, decode failure) is surfaced to every
subscribed caller as the rejection's message string on `error`. -/
theorem C3_abort_suppressed_failures_surfaced :
    (∀ (m : Machine) (rid c : Nat) (cs cs' : CallerState),
       mapGet m.callers c = some cs →
       mapGet (settleRound m rid Outcome.abortError).callers c = some cs' →
       cs'.error = cs.error) ∧
    (∀ (m : Machine) (rid c : Nat) (o : Outcome) (info : RoundInfo) (cs : CallerState)
       (k : HKind),
       m.rounds.find? (fun i => i.rid == rid) = some info →
       rid ∉ m.settled →
       mapGet m.callers c = some cs →
       Attachment.mk c rid k ∈ m.attachments →
       isFailure o = true → o ≠ Outcome.abortError →
       (mapGet (settleRound m rid o).callers c).map CallerState.error =
         some (some (failureMessage o))) := by
  constructor
  · intro m rid c cs cs' h1 h2
    unfold settleRound at h2
    cases hfind : m.rounds.find? (fun i => i.rid == rid) with
    | none =>
      rw [hfind] at h2
      rw [h1] at h2
      exact (Option.some.inj h2).symm ▸ rfl
    | some info =>
      rw [hfind] at h2
      by_cases hr : rid ∈ m.settled
      · simp only [if_pos hr] at h2
        rw [h1] at h2
        exact (Option.some.inj h2).symm ▸ rfl
      · simp only [if_neg hr] at h2
        rw [mapGet_map_callers, h1] at h2
        have := Option.some.inj h2
        rw [← this]
        exact applyOutcome_abortError _ _ _
  · intro m rid c o info cs k hfind hns hcs hmem hf hna
    have hat : (isAttached m.attachments c rid HKind.originator ||
                isAttached m.attachments c rid HKind.attacher) = true := by
      cases k with
      | originator => simp [isAttached_of_mem hmem]
      | attacher => simp [isAttached_of_mem hmem]
    simp only [settleRound, hfind, if_neg hns, mapGet_map_callers, hcs, Option.map_some']
    rw [applyOutcome_failure _ _ _ hf hna hat]

/-- Witness for C3: in the two-caller dedupe state, an abort settlement
leaves the attached caller's `error` untouched, and an HTTP 500
settlement writes the message to it. -/
theorem C3_abort_suppressed_failures_surfaced_witness :
    (({ data := JsValue.nullV, error := none, isLoading := false, timer := none,
        didSetInFlight := false, curUrl := "u" } : CallerState).error =
     ({ data := JsValue.nullV, error := none, isLoading := true, timer := none,
        didSetInFlight := false, curUrl := "u" } : CallerState).error) ∧
    ((mapGet (settleRound (run initMachine (c1trace "u")) 0 (Outcome.httpError 500)).callers
        1).map CallerState.error = some (some (failureMessage (Outcome.httpError 500)))) :=
  ⟨C3_abort_suppressed_failures_surfaced.1 (run initMachine (c1trace "u")) 0 1
     { data := JsValue.nullV, error := none, isLoading := true, timer := none,
       didSetInFlight := false, curUrl := "u" }
     { data := JsValue.nullV, error := none, isLoading := false, timer := none,
       didSetInFlight := false, curUrl := "u" }
     (by decide) (by decide),
   C3_abort_suppressed_failures_surfaced.2 (run initMachine (c1trace "u")) 0 1
     (Outcome.httpError 500) (RoundInfo.mk 0 "u" true)
     { data := JsValue.nullV, error := none, isLoading := true, timer := none,
       didSetInFlight := false, curUrl := "u" }
     HKind.attacher (by decide) (by decide) (by decide) (by decide) (by decide) (by decide)⟩

/-- C4: in every reachable state the in-flight registry refers only to
rounds that have not settled (the registry never retains an entry for a
settled call), and settling any unsettled GET round removes the registry
entry for that round's url unconditionally — whatever the outcome and
however many callers remain attached (their reactions run from the shared
promise, not from the registry entry). -/
theorem C4_registry_removed_on_settlement {m : Machine} (h : Reachable m) :
    (∀ (url : String) (rid : Nat), mapGet m.inFlight url = some rid → rid ∉ m.settled) ∧
    (∀ (rid : Nat) (o : Outcome) (info : RoundInfo),
       m.rounds.find? (fun i => i.rid == rid) = some info →
       rid ∉ m.settled → info.shouldCache = true →
       mapGet (settleRound m rid o).inFlight info.url = none) := by
  have hinv := reachable_inv h
  constructor
  · intro url rid hif
    exact hinv.ifUnsettled (url, rid) (mapGet_eq_some_mem hif)
  · intro rid o info hfind hns hsc
    simp only [settleRound, hfind, if_neg hns, hsc, if_true]
    exact mapGet_mapDelete_self hinv.ifKeysNodup

/-- Witness for C4 in the state with one originated GET round for "u",
settled successfully. -/
theorem C4_registry_removed_on_settlement_witness :
    ((0 : Nat) ∉ (run initMachine [Event.mount 0, Event.invoke 0 "u" ({} : Options) 0]).settled) ∧
    mapGet (settleRound (run initMachine [Event.mount 0, Event.invoke 0 "u" ({} : Options) 0])
        0 (Outcome.success (JsValue.objV 2))).inFlight "u" = none := by
  have h := C4_registry_removed_on_settlement
    ⟨[Event.mount 0, Event.invoke 0 "u" ({} : Options) 0], rfl⟩
  exact ⟨h.1 "u" 0 (by decide),
         h.2 0 (Outcome.success (JsValue.objV 2)) (RoundInfo.mk 0 "u" true)
           (by decide) (by decide) rfl⟩

/-- C5 (claim as stated is refuted): after a successful GET for "u" is
cached, a second component invokes `execute` for "u" with
`debounce := 5`; the cache check is not delayed — at the very invoke
instant (machine clock still 0) the caller is served synchronously
(`data` set, `isLoading = false`) and no delayed work is pending
(`timer = none`).  Only one transport call ever happened.  This
contradicts the claim that the entire algorithm including the cache check
is delayed by the debounce duration. -/
theorem C5_claim_counterexample :
    (run initMachine c5cex).now = 0 ∧
    (mapGet (run initMachine c5cex).callers 1) =
      some { data := JsValue.objV 7, error := none, isLoading := false, timer := none,
             didSetInFlight := false, curUrl := "u" } ∧
    (run initMachine c5cex).transportCalls.length = 1 := by
  decide

/-- C5 (amended): only the network stage (`runFetch`) is delayed by the
debounce; the cache and in-flight checks run synchronously at invocation
time.  On the miss path, a new invocation before the delay elapses
cancels the pending delayed network call and restarts the timer
(trailing-debounce): three invocations at `t1 ≤ t2 ≤ t3` within the
window leave no transport call and exactly one pending timer expiring at
`t3 + d`, and its firing issues exactly one transport invocation at
`t3 + d` — one full delay after the last invocation. -/
theorem C5_amended_trailing_debounce (u : String) (d t1 t2 t3 : Nat) (hu : u ≠ "")
    (hd : 0 < d) (h12 : t1 ≤ t2) (h23 : t2 ≤ t3) (hw2 : t2 < t1 + d) (hw3 : t3 < t2 + d) :
    (run initMachine (c5trace u d t1 t2 t3)).transportCalls = [] ∧
    (mapGet (run initMachine (c5trace u d t1 t2 t3)).callers 0).map CallerState.timer =
      some (some (PendingFetch.mk u true (t3 + d))) ∧
    (step (run initMachine (c5trace u d t1 t2 t3)) (Event.timer 0 (t3 + d))).transportCalls =
      [(0, u, t3 + d)] := by
  rw [c5_run_eq u d t1 t2 t3 hu hd h12 h23]
  refine ⟨rfl, by simp [c5mid], ?_⟩
  simp [step, timerFire, c5mid, runFetch, setCaller, Nat.le_add_right]

/-- Witness for C5's amended theorem: three invocations at 0, 100, 200
with a 500 debounce; the single transport call happens at 700. -/
theorem C5_amended_trailing_debounce_witness :
    (0 < 500 ∧ (0 : Nat) ≤ 100 ∧ (100 : Nat) ≤ 200 ∧ 100 < 0 + 500 ∧ 200 < 100 + 500) ∧
    ((run initMachine (c5trace "u" 500 0 100 200)).transportCalls = [] ∧
     (mapGet (run initMachine (c5trace "u" 500 0 100 200)).callers 0).map CallerState.timer =
       some (some (PendingFetch.mk "u" true (200 + 500))) ∧
     (step (run initMachine (c5trace "u" 500 0 100 200))
        (Event.timer 0 (200 + 500))).transportCalls = [(0, "u", 200 + 500)]) :=
  ⟨⟨by decide, by decide, by decide, by decide, by decide⟩,
   C5_amended_trailing_debounce "u" 500 0 100 200 (by decide) (by decide) (by decide)
     (by decide) (by decide) (by decide)⟩

/-- C6 (claim as stated is refuted): caller 0 originates a GET round for
"u" that settles with a failure (nothing cached, registry cleared);
caller 1 then originates a fresh round 1 for "u", putting its own entry
in the registry.  Tearing caller 0 down now deletes caller 1's registry
entry, although caller 0's own originated call has long settled and the
present entry was created by a different originator — because
`didSetInFlight` is set on origination and never cleared. -/
theorem C6_claim_counterexample :
    (run initMachine c6cex).inFlight = [("u", 1)] ∧
    Attachment.mk 1 1 HKind.originator ∈ (run initMachine c6cex).attachments ∧
    (0 : Nat) ∈ (run initMachine c6cex).settled ∧
    (1 : Nat) ∉ (run initMachine c6cex).settled ∧
    (step (run initMachine c6cex) (Event.teardown 0)).inFlight = [] := by
  decide

/-- C6 (amended): on teardown a binding deletes the registry entry for
its current url exactly when its `didSetInFlight` flag is set; the flag
is set when the binding originates a GET call and never cleared, and a
binding that merely attaches to another originator's pending result never
sets it (its state after attaching keeps the old flag), so a pure
attacher never deletes — but a binding whose originated call has already
settled still deletes whatever entry is present for that url. -/
theorem C6_amended_teardown_guard :
    (∀ (m : Machine) (c : Nat) (cs : CallerState),
       mapGet m.callers c = some cs → cs.didSetInFlight = false →
       (cleanup m c).inFlight = m.inFlight) ∧
    (∀ (m : Machine) (c : Nat) (cs : CallerState),
       mapGet m.callers c = some cs → cs.didSetInFlight = true →
       (cleanup m c).inFlight = mapDelete m.inFlight cs.curUrl) ∧
    (∀ (m : Machine) (c : Nat) (url : String) (opts : Options) (t : Nat)
       (cs : CallerState) (rid : Nat),
       mapGet m.callers c = some cs → url ≠ "" →
       toUpperCase (stableOptions opts).method = "GET" →
       mapGet m.cache url = none → mapGet m.inFlight url = some rid →
       mapGet (fetchData m c url opts t).callers c =
         some { cs with curUrl := url, isLoading := true }) := by
  refine ⟨?_, ?_, ?_⟩
  · intro m c cs hcs hflag
    simp [cleanup, hcs, hflag, setCaller]
  · intro m c cs hcs hflag
    simp [cleanup, hcs, hflag, setCaller]
  · intro m c url opts t cs rid hcs hu hm hcache hif
    have hsc : decide (toUpperCase (stableOptions opts).method = "GET") = true :=
      decide_eq_true hm
    unfold fetchData
    dsimp only
    simp only [hcs, if_neg hu, hsc, if_true, hcache, hif, setCaller]
    exact mapGet_mapSet_self

/-- Witness for C6's amended theorem: a freshly mounted binding does not
delete on teardown; the originator of "u" deletes the entry for its url;
an attaching binding keeps its flag (and timer) unchanged. -/
theorem C6_amended_teardown_guard_witness :
    ((cleanup (step initMachine (Event.mount 0)) 0).inFlight =
       (step initMachine (Event.mount 0)).inFlight ∧
     (cleanup (run initMachine (c1trace "u")) 0).inFlight =
       mapDelete (run initMachine (c1trace "u")).inFlight
         ({ data := JsValue.nullV, error := none, isLoading := true, timer := none,
            didSetInFlight := true, curUrl := "u" } : CallerState).curUrl) ∧
    mapGet (fetchData (run initMachine [Event.mount 0, Event.mount 1,
        Event.invoke 0 "u" ({} : Options) 0]) 1 "u" {} 0).callers 1 =
      some { initialCallerState with curUrl := "u", isLoading := true } :=
  ⟨⟨C6_amended_teardown_guard.1 (step initMachine (Event.mount 0)) 0 initialCallerState
      (by decide) rfl,
    C6_amended_teardown_guard.2.1 (run initMachine (c1trace "u")) 0
      { data := JsValue.nullV, error := none, isLoading := true, timer := none,
        didSetInFlight := true, curUrl := "u" } (by decide) rfl⟩,
   C6_amended_teardown_guard.2.2 (run initMachine [Event.mount 0, Event.mount 1,
       Event.invoke 0 "u" ({} : Options) 0]) 1 "u" {} 0 initialCallerState 0
     (by decide) (by decide) (by decide) (by decide) (by decide)⟩

/-- C7: at every reachable state, a pending registry handle for a url and
a committed cache entry for that url from the same round are mutually
exclusive: while the registry maps the url to round `rid`, no cache entry
for that url carries `rid`'s commit tag — round `rid` has not yet
committed for the current round.  (A cache entry from an older, settled
round may coexist with a newer pending handle; the claim's "for the
current round" qualification is exactly what holds.) -/
theorem C7_inflight_cache_exclusive_per_round {m : Machine} (h : Reachable m)
    (url : String) (rid : Nat) (hif : mapGet m.inFlight url = some rid) :
    ∀ (v : JsValue) (ρ : Nat), (url, v, ρ) ∈ m.cache → ρ ≠ rid := by
  intro v ρ hmem heq
  have hinv := reachable_inv h
  have h1 : rid ∉ m.settled := hinv.ifUnsettled (url, rid) (mapGet_eq_some_mem hif)
  have h2 : ρ ∈ m.settled := hinv.cacheSettled (url, v, ρ) hmem
  rw [heq] at h2
  exact h1 h2

/-- Witness for C7 in a reachable state where "a" has both a cache entry
(committed by the settled round 0) and a pending handle (round 1,
registered by a debounced caller that fired after the commit): the cache
entry's tag 0 is distinct from the pending round 1. -/
theorem C7_inflight_cache_exclusive_per_round_witness :
    mapGet (run initMachine c7wtrace).inFlight "a" = some 1 ∧
    ("a", JsValue.objV 1, 0) ∈ (run initMachine c7wtrace).cache ∧
    (0 : Nat) ≠ 1 :=
  ⟨by decide, by decide,
   C7_inflight_cache_exclusive_per_round ⟨c7wtrace, rfl⟩ "a" 1 (by decide)
     (JsValue.objV 1) 0 (by decide)⟩

/-- C8: a non-GET `execute` invocation leaves both the cache and the
in-flight registry untouched and never consults them — with no debounce
it issues a transport call regardless of any cached entry for the url;
settling a non-GET round also leaves cache and registry untouched; and
the cache changes only when a GET round settles successfully with a
truthy (non-empty) decoded body, in which case the write is exactly
`cacheCommit`, the capacity-respecting eviction-then-insert of C2. -/
theorem C8_cache_only_truthy_get_success :
    (∀ (m : Machine) (c : Nat) (url : String) (opts : Options) (t : Nat),
       toUpperCase (stableOptions opts).method ≠ "GET" →
       (fetchData m c url opts t).cache = m.cache ∧
       (fetchData m c url opts t).inFlight = m.inFlight) ∧
    (∀ (m : Machine) (c : Nat) (url : String) (opts : Options) (t : Nat) (cs : CallerState),
       mapGet m.callers c = some cs → url ≠ "" →
       toUpperCase (stableOptions opts).method ≠ "GET" →
       (stableOptions opts).debounce = 0 →
       (fetchData m c url opts t).transportCalls =
         (m.nextRound, url, max m.now t) :: m.transportCalls) ∧
    (∀ (m : Machine) (rid : Nat) (o : Outcome) (info : RoundInfo),
       m.rounds.find? (fun i => i.rid == rid) = some info → info.shouldCache = false →
       (settleRound m rid o).cache = m.cache ∧ (settleRound m rid o).inFlight = m.inFlight) ∧
    (∀ (m : Machine) (rid : Nat) (o : Outcome),
       (settleRound m rid o).cache ≠ m.cache →
       ∃ (info : RoundInfo) (v : JsValue),
         m.rounds.find? (fun i => i.rid == rid) = some info ∧
         info.shouldCache = true ∧ o = Outcome.success v ∧ truthy v = true ∧
         (settleRound m rid o).cache = cacheCommit m.cache info.url (v, rid)) := by
  refine ⟨?_, ?_, ?_, ?_⟩
  · intro m c url opts t hm
    have hd : decide (toUpperCase (stableOptions opts).method = "GET") = false :=
      decide_eq_false hm
    refine ⟨fetchData_cache_eq m c url opts t, ?_⟩
    unfold fetchData
    dsimp only
    rw [hd]
    simp only [Bool.false_eq_true, if_false]
    repeat' split
    all_goals first
      | rfl
      | exact runFetch_inFlight_false _ _ _
  · intro m c url opts t cs hcs hu hm hdb
    have hd : decide (toUpperCase (stableOptions opts).method = "GET") = false :=
      decide_eq_false hm
    unfold fetchData
    dsimp only
    rw [hd]
    simp only [Bool.false_eq_true, if_false, hcs, if_neg hu, hdb]
    rw [if_neg (Nat.lt_irrefl 0)]
    simp only [runFetch, setCaller, mapGet_mapSet_self]
  · intro m rid o info hfind hsc
    by_cases hr : rid ∈ m.settled
    · constructor <;> simp [settleRound, hfind, hr]
    · cases o <;> constructor <;> simp [settleRound, hfind, hr, hsc]
  · intro m rid o hne
    cases hfind : m.rounds.find? (fun i => i.rid == rid) with
    | none =>
      exfalso
      apply hne
      unfold settleRound
      rw [hfind]
    | some info =>
      by_cases hr : rid ∈ m.settled
      · exfalso
        apply hne
        unfold settleRound
        rw [hfind]
        simp [hr]
      · cases o with
        | success v =>
          by_cases hsc : info.shouldCache && truthy v
          · have hsc' : info.shouldCache = true ∧ truthy v = true := by simpa using hsc
            refine ⟨info, v, rfl, hsc'.1, rfl, hsc'.2, ?_⟩
            unfold settleRound
            rw [hfind]
            simp [hr, hsc]
          · exfalso
            apply hne
            unfold settleRound
            rw [hfind]
            simp [hr, hsc]
        | httpError s =>
          exfalso
          apply hne
          unfold settleRound
          rw [hfind]
          simp [hr]
        | transportError s =>
          exfalso
          apply hne
          unfold settleRound
          rw [hfind]
          simp [hr]
        | decodeError s =>
          exfalso
          apply hne
          unfold settleRound
          rw [hfind]
          simp [hr]
        | abortError =>
          exfalso
          apply hne
          unfold settleRound
          rw [hfind]
          simp [hr]

/-- Witness for C8: a POST invocation on the empty machine, a POST
invocation issuing transport from a mounted caller, the settlement of a
non-GET round, and a cache-changing GET settlement. -/
theorem C8_cache_only_truthy_get_success_witness :
    ((fetchData initMachine 0 "u" postOpts 0).cache = initMachine.cache ∧
     (fetchData initMachine 0 "u" postOpts 0).inFlight = initMachine.inFlight) ∧
    (fetchData (step initMachine (Event.mount 0)) 0 "u" postOpts 0).transportCalls =
      ((step initMachine (Event.mount 0)).nextRound, "u",
        max (step initMachine (Event.mount 0)).now 0) ::
        (step initMachine (Event.mount 0)).transportCalls ∧
    ((settleRound (run initMachine [Event.mount 0, Event.invoke 0 "u" postOpts 0]) 0
        (Outcome.success (JsValue.objV 1))).cache =
       (run initMachine [Event.mount 0, Event.invoke 0 "u" postOpts 0]).cache ∧
     (settleRound (run initMachine [Event.mount 0, Event.invoke 0 "u" postOpts 0]) 0
        (Outcome.success (JsValue.objV 1))).inFlight =
       (run initMachine [Event.mount 0, Event.invoke 0 "u" postOpts 0]).inFlight) ∧
    (∃ (info : RoundInfo) (v : JsValue),
       (run initMachine [Event.mount 0, Event.invoke 0 "u" ({} : Options) 0]).rounds.find?
           (fun i => i.rid == 0) = some info ∧
       info.shouldCache = true ∧
       Outcome.success (JsValue.objV 1) = Outcome.success v ∧ truthy v = true ∧
       (settleRound (run initMachine [Event.mount 0, Event.invoke 0 "u" ({} : Options) 0]) 0
           (Outcome.success (JsValue.objV 1))).cache =
         cacheCommit (run initMachine [Event.mount 0, Event.invoke 0 "u" ({} : Options) 0]).cache
           info.url (v, 0)) :=
  ⟨C8_cache_only_truthy_get_success.1 initMachine 0 "u" postOpts 0 (by decide),
   C8_cache_only_truthy_get_success.2.1 (step initMachine (Event.mount 0)) 0 "u" postOpts 0
     initialCallerState (by decide) (by decide) (by decide) (by decide),
   C8_cache_only_truthy_get_success.2.2.1
     (run initMachine [Event.mount 0, Event.invoke 0 "u" postOpts 0]) 0
     (Outcome.success (JsValue.objV 1)) (RoundInfo.mk 0 "u" false) (by decide) rfl,
   C8_cache_only_truthy_get_success.2.2.2
     (run initMachine [Event.mount 0, Event.invoke 0 "u" ({} : Options) 0]) 0
     (Outcome.success (JsValue.objV 1)) (by decide)⟩

/-- C9 (claim as stated is refuted): supplying `debounceMs := 500` does
not cause debounced execution — `stableOptions` normalises it to
`debounce = 0` because the source reads the key `debounce`, and the
invocation issues its transport call immediately with no pending timer,
exactly as if no option had been passed.  The recognized key is
`debounce`, not `debounceMs`. -/
theorem C9_claim_counterexample :
    (stableOptions msOpts).debounce = 0 ∧
    msOpts.debounceMs = some 500 ∧
    (run initMachine [Event.mount 0, Event.invoke 0 "u" msOpts 0]).transportCalls =
      [(0, "u", 0)] ∧
    (mapGet (run initMachine [Event.mount 0, Event.invoke 0 "u" msOpts 0]).callers 0).map
      CallerState.timer = some none := by
  decide

/-- C9 (amended): the recognized option keys are `method`, `headers`,
`body` and `debounce` (not `debounceMs`), with defaults
`method = "GET"`, `headers` empty, `body` null/absent and `debounce = 0`;
supplying a positive `debounce` value causes the debounced behaviour (a
pending timer, no immediate transport), and omitting every option yields
an immediate GET request. -/
theorem C9_amended_option_keys :
    stableOptions {} = StableOptions.mk "GET" [] JsValue.nullV 0 ∧
    (∀ o : Options, (stableOptions o).method = jsOrString o.method "GET" ∧
       (stableOptions o).headers = o.headers.getD [] ∧
       (stableOptions o).debounce = o.debounce.getD 0) ∧
    (∀ d : Nat, 0 < d →
       (mapGet (run initMachine
           [Event.mount 0, Event.invoke 0 "u" (debounceOpts d) 0]).callers 0).map
         CallerState.timer = some (some (PendingFetch.mk "u" true d)) ∧
       (run initMachine [Event.mount 0, Event.invoke 0 "u" (debounceOpts d) 0]).transportCalls =
         []) ∧
    (run initMachine [Event.mount 0, Event.invoke 0 "u" ({} : Options) 0]).transportCalls =
      [(0, "u", 0)] ∧
    (run initMachine [Event.mount 0, Event.invoke 0 "u" ({} : Options) 0]).rounds =
      [RoundInfo.mk 0 "u" true] := by
  refine ⟨rfl, fun o => ⟨rfl, rfl, rfl⟩, ?_, by decide, by decide⟩
  intro d hd
  constructor <;>
    simp [run, step, initMachine, mountCaller, fetchData, setCaller, stableOptions,
      jsOrString, debounceOpts, initialCallerState, hd]

/-- Witness for C9's amended theorem at `debounce = 500`. -/
theorem C9_amended_option_keys_witness :
    (0 < 500) ∧
    ((mapGet (run initMachine
        [Event.mount 0, Event.invoke 0 "u" (debounceOpts 500) 0]).callers 0).map
       CallerState.timer = some (some (PendingFetch.mk "u" true 500)) ∧
     (run initMachine [Event.mount 0, Event.invoke 0 "u" (debounceOpts 500) 0]).transportCalls =
       []) :=
  ⟨by decide, C9_amended_option_keys.2.2.1 500 (by decide)⟩

/-- C10: an `execute` (or `refetch`) invocation with a falsy (empty) url
returns immediately: the cache, registry, issued rounds and transport log
are all unchanged and every caller's observable fields (`data`, `error`,
`isLoading`, timer, flag) are untouched; consequently a component whose
events are only empty-url invocations keeps its initial state
`{data = null, error = null, isLoading = true}` forever and never issues
a transport call — `isLoading` never becomes `false`. -/
theorem C10_empty_url_no_transition :
    (∀ (m : Machine) (c : Nat) (opts : Options) (t : Nat),
       (fetchData m c "" opts t).cache = m.cache ∧
       (fetchData m c "" opts t).inFlight = m.inFlight ∧
       (fetchData m c "" opts t).rounds = m.rounds ∧
       (fetchData m c "" opts t).transportCalls = m.transportCalls ∧
       (∀ c' : Nat, (mapGet (fetchData m c "" opts t).callers c').map
           (fun cs => (cs.data, cs.error, cs.isLoading, cs.timer, cs.didSetInFlight)) =
         (mapGet m.callers c').map
           (fun cs => (cs.data, cs.error, cs.isLoading, cs.timer, cs.didSetInFlight)))) ∧
    (∀ (c : Nat) (evs : List Event),
       (∀ e ∈ evs, ∃ (opts : Options) (t : Nat), e = Event.invoke c "" opts t) →
       mapGet (run (step initMachine (Event.mount c)) evs).callers c =
         some initialCallerState ∧
       (run (step initMachine (Event.mount c)) evs).transportCalls = []) := by
  constructor
  · intro m c opts t
    unfold fetchData
    dsimp only
    cases hg : mapGet m.callers c with
    | none => simp
    | some cs0 =>
      simp only [hg, eq_self_iff_true, if_true]
      refine ⟨rfl, rfl, rfl, rfl, ?_⟩
      intro c'
      by_cases hcc : c = c'
      · subst hcc
        rw [setCaller, mapGet_mapSet_self, hg]
        rfl
      · rw [setCaller, mapGet_mapSet_ne hcc]
  · intro c evs hevs
    have hstart1 : mapGet (step initMachine (Event.mount c)).callers c =
        some initialCallerState := by
      simp [step, initMachine, mountCaller]
    have hstart2 : (step initMachine (Event.mount c)).transportCalls = [] := by
      simp [step, initMachine, mountCaller]
    have hgen : ∀ (evsr : List Event) (m : Machine),
        mapGet m.callers c = some initialCallerState →
        (∀ e ∈ evsr, ∃ (opts : Options) (t : Nat), e = Event.invoke c "" opts t) →
        mapGet (run m evsr).callers c = some initialCallerState ∧
        (run m evsr).transportCalls = m.transportCalls := by
      intro evsr
      induction evsr with
      | nil => intro m h1 _; exact ⟨h1, rfl⟩
      | cons e tl ih =>
        intro m h1 hall
        obtain ⟨opts, t, rfl⟩ := hall e (List.mem_cons_self _ _)
        have hstep := fetchData_empty_preserves m c c opts t h1
        have hrec := ih (fetchData m c "" opts t) hstep.1
          (fun e' he' => hall e' (List.mem_cons_of_mem _ he'))
        exact ⟨hrec.1, hrec.2.trans hstep.2⟩
    obtain ⟨h1, h2⟩ := hgen evs _ hstart1 hevs
    exact ⟨h1, h2.trans hstart2⟩

/-- Witness for C10: caller 5 mounted and twice invoked with the empty
url keeps its initial state and an empty transport log. -/
theorem C10_empty_url_no_transition_witness :
    mapGet (run (step initMachine (Event.mount 5))
        [Event.invoke 5 "" ({} : Options) 3, Event.invoke 5 "" msOpts 9]).callers 5 =
      some initialCallerState ∧
    (run (step initMachine (Event.mount 5))
        [Event.invoke 5 "" ({} : Options) 3, Event.invoke 5 "" msOpts 9]).transportCalls = [] :=
  C10_empty_url_no_transition.2 5
    [Event.invoke 5 "" ({} : Options) 3, Event.invoke 5 "" msOpts 9]
    (by
      intro e he
      rcases List.mem_cons.mp he with rfl | he
      · exact ⟨{}, 3, rfl⟩
      · rcases List.mem_cons.mp he with rfl | he
        · exact ⟨msOpts, 9, rfl⟩
        · simp at he)
